import Mathlib

/-!
Verification of the infpm package-manager core (Go sources: `main.go`,
`package.go` and companion files) against its natural-language
specification.  The Go functions relevant to the claims are shallowly
embedded below: pure logic becomes Lean functions, filesystem and network
effects become explicit environment parameters, paths are modelled as lists
of components (Go `filepath.Join` on clean components is list append), and
fallible operations return `Option`/`Except`.
-/

namespace Infpm

/-! ## String utilities (embedding `strings.ToLower`, `strings.Contains`) -/

/-- Embeds Go `strings.ToLower` (ASCII use in this code base), as a map
over the character list. -/
def strToLower (s : String) : String := String.mk (s.data.map Char.toLower)

/-- `leadsWith sub s` is true when `sub` occurs at the start of `s`
(a prefix test on character lists). -/
def leadsWith : List Char → List Char → Bool
  | [], _ => true
  | _ :: _, [] => false
  | a :: as, b :: bs => a == b && leadsWith as bs

/-- `containsSub s sub` is true when `sub` occurs contiguously inside `s`.
Embeds Go `strings.Contains`; in particular the empty pattern always
matches, as in Go. -/
def containsSub : List Char → List Char → Bool
  | [], sub => sub.isEmpty
  | s@(_ :: t), sub => leadsWith sub s || containsSub t sub

/-- Embeds Go `strings.Contains` on `String`. -/
def strContains (s sub : String) : Bool := containsSub s.data sub.data

/-! ## Package identity (`package.go`: `generateId`, `setOpts`) -/

/-- The fixed ID alphabet of `generateId`
(`var idLetters = []rune("abcdefghijklmnopqrstuvwxyzABCDEFGHIJKLMNOPQRSTUVWXYZ123456789")`). -/
def idLetters : List Char :=
  "abcdefghijklmnopqrstuvwxyzABCDEFGHIJKLMNOPQRSTUVWXYZ123456789".data

theorem idLetters_length : idLetters.length = 61 := by decide

/-- Embeds `generateId`: a 5-character string whose characters are drawn
from `idLetters` by the pseudo-random source.  The randomness
(`rand.Intn(len(idLetters))`), which always yields an index below 61, is
modelled as the explicit parameter `r`. -/
def generateId (r : Fin 5 → Fin 61) : String :=
  String.mk (((List.finRange 5).map fun i => idLetters.get ((r i).cast idLetters_length.symm)))

/-- Embeds `PreinstallPackageOpts`. -/
structure PreinstallPackageOpts where
  Name : String
  Version : String
  UseDisk : Bool
  RetainTarball : Bool
  deriving Repr, DecidableEq

/-- Embeds `PreinstallPackage`.  The embedded Go struct
`PreinstallPackageOpts` is held as the field `opts` (Go field promotion:
`p.Name` is `p.opts.Name` here); the `io.ReadCloser` is modelled by
whether it is non-nil (`tarballReaderOpen`). -/
structure PreinstallPackage where
  opts : PreinstallPackageOpts
  Id : String
  Path : String
  Initialised : Bool
  tarballPath : String
  tarballReaderOpen : Bool
  deriving Repr, DecidableEq

/-- Embeds `(*PreinstallPackage) setOpts`: fails (returns `none`) exactly
when the name or version is empty; otherwise fills in the generated `Id`
and the store-relative `Path = filepath.Join(Name, Version, Id)`
(components are clean, so the join is plain `/`-concatenation). -/
def setOpts (opts : PreinstallPackageOpts) (r : Fin 5 → Fin 61) : Option PreinstallPackage :=
  if opts.Version = "" ∨ opts.Name = "" then
    none
  else
    let id := generateId r
    some { opts := opts
           Id := id
           Path := opts.Name ++ "/" ++ opts.Version ++ "/" ++ id
           Initialised := false
           tarballPath := ""
           tarballReaderOpen := false }

/-! ## Filesystem trees and the layout-detection walk (`package.go` `Install`)

A filesystem tree is modelled inductively; a path is a list of components
(`filepath.Dir` is `List.dropLast`, `filepath.Base` is the last component,
`filepath.Join` is append).  `filepath.WalkDir` visits the root entry
first and then each directory's children in order; `SkipDir` is modelled
by simply not recursing. -/

/-- A node of an extracted filesystem tree: a file with its permission
bits, or a directory with its (walk-ordered) children. -/
inductive FSEntry where
  | file (name : String) (mode : Nat)
  | dir (name : String) (children : List FSEntry)

/-- The name of an entry, as `fs.DirEntry.Name()` returns it. -/
def FSEntry.name : FSEntry → String
  | .file n _ => n
  | .dir n _ => n

/-- The mutable state of the layout-detection walk in `Install`:
`topLevel` (empty string in Go modelled as `none`), the `executables`
list and the `dirs` list.  The Go code collects `dirs` as path strings
and re-reads the filesystem in the linking pass; since the tree is
immutable here, the entry is carried alongside its path. -/
structure WalkState where
  topLevel : Option (List String)
  executables : List (List String)
  dirs : List (List String × FSEntry)

mutual

/-- One callback invocation of the layout-detection walk of `Install` on
the entry `e` whose parent directory is `parent`, followed by the walk of
its subtree when the callback does not skip it.  Mirrors the `WalkDir`
closure: a non-directory with any `0111` permission bit set is appended
to `executables`; once `topLevel` is set every directory is appended to
`dirs` and skipped; a first directory named exactly `bin`, `lib` or
`share` sets `topLevel` to its parent, is appended to `dirs` and is
skipped; any other directory is descended into. -/
def walkEntry (parent : List String) (st : WalkState) : FSEntry → WalkState
  | .file n mode =>
    if mode &&& 0o111 ≠ 0 then
      { st with executables := st.executables ++ [parent ++ [n]] }
    else st
  | .dir n children =>
    let path := parent ++ [n]
    match st.topLevel with
    | some _ => { st with dirs := st.dirs ++ [(path, .dir n children)] }
    | none =>
      if n = "bin" ∨ n = "lib" ∨ n = "share" then
        { st with topLevel := some parent
                  dirs := st.dirs ++ [(path, .dir n children)] }
      else
        walkEntries path st children

/-- Walks a list of sibling entries, threading the state left to right. -/
def walkEntries (parent : List String) (st : WalkState) : List FSEntry → WalkState
  | [] => st
  | e :: es => walkEntries parent (walkEntry parent st e) es

end

/-- The whole layout-detection walk of `Install`: `filepath.WalkDir`
starting at the package's store directory (the tree root `root`, whose
parent path is `base`), with the initial empty state. -/
def installWalk (base : List String) (root : FSEntry) : WalkState :=
  walkEntry base ⟨none, [], []⟩ root

mutual

/-- All executable-permission files in a tree, with their full paths
(`base` is the parent path of `e`), in depth-first order. -/
def allExecutables (base : List String) : FSEntry → List (List String)
  | .file n mode => if mode &&& 0o111 ≠ 0 then [base ++ [n]] else []
  | .dir n children => allExecutablesL (base ++ [n]) children

/-- `allExecutables` over a list of siblings. -/
def allExecutablesL (base : List String) : List FSEntry → List (List String)
  | [] => []
  | e :: es => allExecutables base e ++ allExecutablesL base es

end

/-! ## The linking pass of `Install` -/

/-- Embeds `filepath.Rel(base, target)` on clean component paths: strip
the common prefix, then one `..` per remaining component of `base`. -/
def relPath : List String → List String → List String
  | [], ts => ts
  | bs, [] => List.replicate bs.length ".."
  | b :: bs, t :: ts =>
    if b = t then relPath bs ts
    else List.replicate (bs.length + 1) ".." ++ (t :: ts)

/-- A created symbolic link, as the pair (store source, link destination). -/
abbrev Link := List String × List String

mutual

/-- The inner `WalkDir` of the canonical-root linking strategy, visiting
the entry `e` whose own full path is `selfPath`: a directory gets
`MkdirAll` at the destination (modelled as succeeding, producing no link
record) and is descended; a file gets `os.Symlink(src, dst)` with
`dst = SymlinkPath ++ Rel(topLevel, src)`; a symlink failure (decided by
the environment predicate `fails`) is logged and skipped, the walk
continues. -/
def linkWalkE (sym tl : List String) (fails : List String → List String → Bool)
    (selfPath : List String) : FSEntry → List Link
  | .file _ _ =>
    let dst := sym ++ relPath tl selfPath
    if fails selfPath dst then [] else [(selfPath, dst)]
  | .dir _ children => linkWalkL sym tl fails selfPath children

/-- `linkWalkE` over the children of the directory at `dirPath`. -/
def linkWalkL (sym tl : List String) (fails : List String → List String → Bool)
    (dirPath : List String) : List FSEntry → List Link
  | [] => []
  | e :: es =>
    linkWalkE sym tl fails (dirPath ++ [e.name]) e ++ linkWalkL sym tl fails dirPath es

end

/-- The fallback linking strategy of `Install`: each collected executable
`e` is linked at `SymlinkPath/bin/<filepath.Base(e)>`; an individual
symlink failure is logged and skipped. -/
def linkExecutables (sym : List String) (fails : List String → List String → Bool)
    (exes : List (List String)) : List Link :=
  exes.filterMap fun e =>
    let dst := sym ++ ["bin", e.getLastD ""]
    if fails e dst then none else some (e, dst)

/-! ## The `Install` pipeline (`package.go` lines 186-294) -/

/-- Embeds `PackageManagerOpts`; the two roots are component paths. -/
structure PackageManagerOpts where
  StorePath : List String
  SymlinkPath : List String
  Interactive : Bool

/-- Embeds `Package` (the installed package): the embedded
`*PreinstallPackage`, the store location and the `Symlinked` flag. -/
structure Package where
  pre : PreinstallPackage
  FullPath : List String
  Symlinked : Bool

/-- The environment a single `Install` call runs against: whether
`os.MkdirAll` on the store directory succeeds, whether `tarExtract`
succeeds, the extracted tree (rooted at the store directory, whose
parent path is `storeBase`), whether the layout-detection `WalkDir`
itself reports a filesystem error, and which individual
`os.Symlink(src, dst)` calls fail. -/
structure InstallEnv where
  mkdirOk : Bool
  extractOk : Bool
  storeBase : List String
  tree : FSEntry
  walkOk : Bool
  symlinkFails : List String → List String → Bool

/-- What one `Install` call produced: the returned package (`none` is an
error return), how many times `ppkg.Cleanup()` was invoked inside
`Install`, and the symbolic links created. -/
structure InstallOutput where
  result : Option Package
  cleanups : Nat
  links : List Link

/-- Embeds `(*PreinstallPackage) Install`:
fails if the package is not initialised, if the store directory cannot
be created, or if extraction fails; otherwise invokes `ppkg.Cleanup()`
once (counted, the call itself is modelled separately), then walks the
tree; a walk error is fatal; otherwise exactly one linking strategy runs
(canonical root when `topLevel` was found, executables fallback
otherwise) and the package is returned with `Symlinked` as constructed
(`false`, never updated by the Go code). -/
def Install (ppkg : PreinstallPackage) (opts : PackageManagerOpts) (env : InstallEnv) :
    InstallOutput :=
  if !ppkg.Initialised then ⟨none, 0, []⟩
  else
    let pkg : Package :=
      { pre := ppkg
        FullPath := opts.StorePath ++ [ppkg.opts.Name, ppkg.opts.Version, ppkg.Id]
        Symlinked := false }
    if !env.mkdirOk then ⟨none, 0, []⟩
    else if !env.extractOk then ⟨none, 0, []⟩
    else if !env.walkOk then ⟨none, 1, []⟩
    else
      let st := installWalk env.storeBase env.tree
      match st.topLevel with
      | some tl =>
        ⟨some pkg, 1,
          (st.dirs.map fun pe => linkWalkE opts.SymlinkPath tl env.symlinkFails pe.1 pe.2).flatten⟩
      | none =>
        ⟨some pkg, 1, linkExecutables opts.SymlinkPath env.symlinkFails st.executables⟩

/-! ## `Cleanup` (`package.go` lines 130-138) -/

/-- The filesystem-visible state `Cleanup` acts on: the `RetainTarball`
flag, whether the backing tarball file currently exists, and whether the
reader handle is open (non-nil). -/
structure CleanupState where
  RetainTarball : Bool
  tarballExists : Bool
  readerOpen : Bool
  deriving Repr, DecidableEq

/-- What a `Cleanup` call did: the resulting state, which operations
were attempted, and the error it let escape (the Go function has no
return value, so none ever does). -/
structure CleanupOutcome where
  state : CleanupState
  removeAttempted : Bool
  closeAttempted : Bool
  raised : Option String
  deriving Repr, DecidableEq

/-- Embeds `os.Remove`: deletes the file; reports an error when it did
not exist.  The returned error is what `Cleanup` discards. -/
def osRemove (exists_ : Bool) : Bool × Option String :=
  (false, if exists_ then none else some "no such file or directory")

/-- Embeds `(*PreinstallPackage) Cleanup` on a non-nil receiver: removes
the tarball unless `RetainTarball` is set, closes the reader when one is
open, and discards both results — the Go function returns nothing, so no
error ever escapes it. -/
def Cleanup (st : CleanupState) : CleanupOutcome :=
  let rm := if st.RetainTarball then (st.tarballExists, (none : Option String))
            else osRemove st.tarballExists
  { state := { RetainTarball := st.RetainTarball, tarballExists := rm.1, readerOpen := false }
    removeAttempted := !st.RetainTarball
    closeAttempted := st.readerOpen
    raised := none }

/-- The result of the call expression `ppkg.Cleanup()` when `ppkg` may be
a nil pointer: `Cleanup`'s first statement reads `p.Name`, so a nil
receiver dereferences nil and panics before any cleanup work happens. -/
inductive CleanupCallResult where
  | nilPanic
  | completed (o : CleanupOutcome)
  deriving Repr, DecidableEq

/-- `ppkg.Cleanup()` with a possibly-nil receiver. -/
def cleanupCall : Option CleanupState → CleanupCallResult
  | none => .nilPanic
  | some st => .completed (Cleanup st)

/-! ## Acquisition (`package.go` `NewPackageFromFile`) and the
`actionInstall` pipeline (`main.go`) -/

/-- Embeds `NewPackageFromFile`: `setOpts` failing or `os.Open` failing
(`openOk = false`) both return `(nil, err)`; on success the tarball path
and the open reader are recorded and the package is initialised. -/
def NewPackageFromFile (openOk : Bool) (fp : String) (opts : PreinstallPackageOpts)
    (r : Fin 5 → Fin 61) : Option PreinstallPackage :=
  match setOpts opts r with
  | none => none
  | some p =>
    if openOk then
      some { p with tarballPath := fp, tarballReaderOpen := true, Initialised := true }
    else none

/-- A `ppkg.Cleanup()` call site in `actionInstall`/`Install`, by the
receiver it is invoked on. -/
inductive CleanupCall where
  | onNil
  | onPkg
  deriving Repr, DecidableEq

/-- How one `actionInstall` run ended. -/
inductive ActionOutcome where
  | panicked
  | errored
  | completed
  deriving Repr, DecidableEq

/-- Embeds the tail of `actionInstall` (`main.go`), from the result of
the acquisition constructor onwards: on acquisition failure the returned
package pointer is nil and `ppkg.Cleanup()` is invoked on it (a nil
dereference panic); on success `pm.Install` runs (performing its internal
`Cleanup` after a successful extraction) and `actionInstall` invokes
`ppkg.Cleanup()` once more, unconditionally, before inspecting the
install error.  Returns the outcome and the ordered list of
`ppkg.Cleanup()` invocations. -/
def actionInstall (acq : Option PreinstallPackage) (opts : PackageManagerOpts)
    (env : InstallEnv) : ActionOutcome × List CleanupCall :=
  match acq with
  | none => (.panicked, [.onNil])
  | some ppkg =>
    let out := Install ppkg opts env
    let calls := List.replicate out.cleanups CleanupCall.onPkg ++ [.onPkg]
    (if out.result.isSome then .completed else .errored, calls)

/-! ## GitHub asset resolution (`fetchLatestGithubAsset` and friends) -/

/-- Embeds `githubApiReleaseAsset`. -/
structure GithubAsset where
  Name : String
  BrowserDownloadUrl : String
  deriving Repr, DecidableEq

/-- Embeds `githubApiReleases`. -/
structure GithubRelease where
  HtmlUrl : String
  Name : String
  Assets : List GithubAsset
  TagName : String
  deriving Repr, DecidableEq

/-- Embeds the Go map `alternativeArchKeywords`
(`{"darwin": "macos", "amd64": "x86"}`); a missing key yields the zero
value `""`, exactly as a Go map read does. -/
def alternativeArchKeywords (k : String) : String :=
  if k = "darwin" then "macos" else if k = "amd64" then "x86" else ""

/-- The keyword list built in `fetchLatestGithubAsset`:
`[GOOS, GOARCH, alternativeArchKeywords[GOOS], alternativeArchKeywords[GOARCH]]`. -/
def wantedKeywords (goos goarch : String) : List String :=
  [goos, goarch, alternativeArchKeywords goos, alternativeArchKeywords goarch]

/-- One iteration of the inner keyword loop of the scoring pass, acting
on the running state `(kwCount, potentialAssets)`: first, if the running
count has already reached 2, the asset is appended; then the count is
incremented when the keyword occurs in the lower-cased asset name. -/
def assetScan (a : GithubAsset) (st : Nat × List GithubAsset) (kw : String) :
    Nat × List GithubAsset :=
  let st1 := if st.1 ≥ 2 then (st.1, st.2 ++ [a]) else st
  if strContains (strToLower a.Name) kw then (st1.1 + 1, st1.2) else st1

/-- The scoring pass of `fetchLatestGithubAsset`: for each asset in
order, run the keyword loop with a fresh count, appending into the shared
`potentialAssets` list. -/
def potentialAssets (kws : List String) (assets : List GithubAsset) : List GithubAsset :=
  assets.foldl (fun acc a => (kws.foldl (assetScan a) (0, acc)).2) []

/-- The number of keywords (with multiplicity) occurring case-insensitively
in the asset's name. -/
def matchCount (a : GithubAsset) (kws : List String) : Nat :=
  (kws.filter fun kw => strContains (strToLower a.Name) kw).length

/-- The number of keyword indices at which the running match count has
already reached 2 before that keyword is tested — i.e. how often one
asset is appended to the candidate list. -/
def appendIdxCount (a : GithubAsset) (kws : List String) : Nat :=
  ((List.range kws.length).filter fun i => 2 ≤ matchCount a (kws.take i)).length

/-- An HTTP response, as far as `fetchLatestGithubAsset` inspects it. -/
structure HttpResponse where
  statusCode : Nat
  body : String
  deriving Repr, DecidableEq

/-- The literal error message returned on a non-200 status. -/
def githubNon200Msg : String :=
  "GitHub returned non-OK status code. This is likely due to a ratelimit imposed by the API. Provide the URL to the release tarball yourself."

/-- Embeds the response handling of `fetchLatestGithubAsset` from the
`http.Get` result up to the decoded release: a network failure (`none`
response) propagates the error; a non-200 status returns the ratelimit
error before the body is touched; otherwise the body is decoded
(`json.Decode`, an external collaborator, is the parameter `decode`) and
a decode failure propagates.  The second component records whether a
decode of the body was attempted. -/
def resolveRelease (resp : Option HttpResponse)
    (decode : String → Option GithubRelease) : Except String GithubRelease × Bool :=
  match resp with
  | none => (.error "GET failed", false)
  | some r =>
    if r.statusCode ≠ 200 then (.error githubNon200Msg, false)
    else
      match decode r.body with
      | none => (.error "failed to decode GitHub releases/latest API response", true)
      | some rel => (.ok rel, true)

/-! ## The interactive selection loop of `fetchLatestGithubAsset` -/

/-- The loop-continuation condition
`chosenAssetIdx >= len(potentialAssets) || chosenAssetIdx < 0`. -/
def loopContinue (n : Nat) (i : Int) : Bool := ((n : Int) ≤ i) || (i < 0)

/-- How the selection loop ends, against a finite stream of `Scanln`
results (`none` is a read error). -/
inductive SelectResult where
  | chosen (i : Int)
  | panicked
  | inputExhausted
  deriving Repr, DecidableEq

/-- Embeds the selection loop: while the continuation condition holds,
read the next input — a read error panics, a number becomes the new
index; when the condition fails the current index is the choice.  The
input stream is finite, so a run that consumes it all is reported as
`inputExhausted` (the real loop would keep prompting). -/
def selectLoop (n : Nat) : Int → List (Option Int) → SelectResult
  | i, [] => if loopContinue n i then .inputExhausted else .chosen i
  | i, inp :: rest =>
    if loopContinue n i then
      match inp with
      | none => .panicked
      | some j => selectLoop n j rest
    else .chosen i

/-- Whether a loop run terminated normally with a chosen index. -/
def SelectResult.isChosen : SelectResult → Bool
  | .chosen _ => true
  | _ => false

/-! ## Auxiliary counting function for the scoring pass -/

/-- The number of appends the keyword loop performs for one asset when it
starts with running count `c`: one per keyword index whose running count
has already reached 2 when it is tested. -/
def appendCountFrom (a : GithubAsset) : Nat → List String → Nat
  | _, [] => 0
  | c, kw :: rest =>
    (if 2 ≤ c then 1 else 0) +
      appendCountFrom a (c + if strContains (strToLower a.Name) kw then 1 else 0) rest

/-! ## Concrete fixtures used by the example parts of the claims -/

/-- The spec's canonical-layout example: `pkgroot/bin/tool` (executable)
and `pkgroot/lib/libfoo.so`, inside the store directory the walk starts
at. -/
def exampleTree : FSEntry :=
  .dir "store"
    [.dir "pkgroot"
      [.dir "bin" [.file "tool" 0o755],
       .dir "lib" [.file "libfoo.so" 0o644]]]

/-- The spec's fallback example: no `bin`/`lib`/`share` anywhere, one
executable file `tool`. -/
def fallbackTree : FSEntry := .dir "pkgdir" [.file "tool" 0o755]

/-- The environment in which every `os.Symlink` succeeds. -/
def noLinkFailure : List String → List String → Bool := fun _ _ => false

/-- A concrete initialised package. -/
def examplePpkg : PreinstallPackage :=
  { opts := { Name := "tool", Version := "1.0", UseDisk := false, RetainTarball := false }
    Id := "abcde"
    Path := "tool/1.0/abcde"
    Initialised := true
    tarballPath := "/tmp/t.tgz"
    tarballReaderOpen := true }

/-- A concrete package-manager configuration: store root `store`, link
root `root`. -/
def examplePmOpts : PackageManagerOpts :=
  { StorePath := ["store"], SymlinkPath := ["root"], Interactive := true }

/-- A fault-free install environment whose extracted tree is
`exampleTree`. -/
def exampleEnvCanonical : InstallEnv :=
  { mkdirOk := true, extractOk := true, storeBase := [], tree := exampleTree
    walkOk := true, symlinkFails := noLinkFailure }

/-- A fault-free install environment whose extracted tree is
`fallbackTree`. -/
def exampleEnvFallback : InstallEnv :=
  { mkdirOk := true, extractOk := true, storeBase := [], tree := fallbackTree
    walkOk := true, symlinkFails := noLinkFailure }

/-- The package record `Install` builds for `examplePpkg` under
`examplePmOpts`. -/
def examplePkg : Package :=
  { pre := examplePpkg
    FullPath := ["store", "tool", "1.0", "abcde"]
    Symlinked := false }

/-- Release assets from the spec's scoring example. -/
def assetLinuxAmd64 : GithubAsset := ⟨"tool-linux-amd64.tar.gz", "u1"⟩

/-- An asset matching no OS/arch keyword pair. -/
def assetWindows : GithubAsset := ⟨"tool-windows.zip", "u2"⟩

/-- An asset whose match count reaches 2 only via the empty alias
keyword, late in the scan. -/
def assetLinuxArm64 : GithubAsset := ⟨"tool-linux-arm64.tar.gz", "u3"⟩

/-! # Theorems -/

/-- `generateId` always yields a 5-character string. -/
theorem generateId_length (r : Fin 5 → Fin 61) : (generateId r).length = 5 := by
  simp [generateId, String.length]

/-- Every character of a generated ID comes from the fixed alphabet. -/
theorem generateId_mem (r : Fin 5 → Fin 61) : ∀ c ∈ (generateId r).data, c ∈ idLetters := by
  intro c hc
  simp only [generateId, String.data, List.mem_map] at hc
  obtain ⟨i, _, hi⟩ := hc
  exact hi ▸ List.get_mem _ _ _

/-- C2: `PackageIdentity` construction (`setOpts`) fails exactly when the
name or the version is empty; on success the store-relative path is
exactly `name/version/disambiguator`, where the disambiguator is the
5-character `generateId` token drawn from the fixed 61-character
alphabet. -/
theorem C2_package_identity :
    (∀ (opts : PreinstallPackageOpts) (r : Fin 5 → Fin 61),
      setOpts opts r = none ↔ opts.Name = "" ∨ opts.Version = "") ∧
    (∀ (opts : PreinstallPackageOpts) (r : Fin 5 → Fin 61) (p : PreinstallPackage),
      setOpts opts r = some p →
        p.Path = opts.Name ++ "/" ++ opts.Version ++ "/" ++ p.Id ∧
        p.Id = generateId r ∧ p.Id.length = 5 ∧ ∀ c ∈ p.Id.data, c ∈ idLetters) ∧
    idLetters.length = 61 := by
  refine ⟨?_, ?_, idLetters_length⟩
  · intro opts r
    unfold setOpts
    split
    · simp only [true_iff]
      tauto
    · simp only [reduceCtorEq, false_iff]
      tauto
  · intro opts r p hp
    unfold setOpts at hp
    split at hp
    · simp at hp
    · simp only [Option.some.injEq] at hp
      subst hp
      exact ⟨rfl, rfl, generateId_length r, generateId_mem r⟩

/-- C7: a non-200 status from the latest-release endpoint returns the
ratelimit failure without the body ever being decoded; the message states
the likely ratelimit and instructs supplying the release-tarball URL
directly. -/
theorem C7_non200_no_decode (resp : HttpResponse) (decode : String → Option GithubRelease)
    (h : resp.statusCode ≠ 200) :
    resolveRelease (some resp) decode = (.error githubNon200Msg, false) ∧
    strContains githubNon200Msg "likely" = true ∧
    strContains githubNon200Msg "ratelimit" = true ∧
    strContains githubNon200Msg "Provide the URL to the release tarball yourself." = true :=
  ⟨by simp [resolveRelease, h], by decide, by decide, by decide⟩

/-- Witness for C7 at a concrete 403 (rate-limited) response. -/
theorem C7_non200_no_decode_witness :
    (⟨403, ""⟩ : HttpResponse).statusCode ≠ 200 ∧
    (resolveRelease (some ⟨403, ""⟩) (fun _ => none) = (.error githubNon200Msg, false) ∧
     strContains githubNon200Msg "likely" = true ∧
     strContains githubNon200Msg "ratelimit" = true ∧
     strContains githubNon200Msg "Provide the URL to the release tarball yourself." = true) :=
  ⟨by decide, C7_non200_no_decode ⟨403, ""⟩ (fun _ => none) (by decide)⟩

/-- C8: `Cleanup` attempts the deletion exactly when `RetainTarball` is
false — the tarball survives exactly when the flag is set — closes the
reader exactly when one is open, and never lets a deletion or close
error escape. -/
theorem C8_cleanup_contract (st : CleanupState) :
    (Cleanup st).removeAttempted = !st.RetainTarball ∧
    (Cleanup st).state.tarballExists = (st.RetainTarball && st.tarballExists) ∧
    (Cleanup st).closeAttempted = st.readerOpen ∧
    (Cleanup st).state.readerOpen = false ∧
    (Cleanup st).raised = none := by
  obtain ⟨ret, ex, op⟩ := st
  cases ret <;> simp [Cleanup, osRemove]

/-- C9: on every acquisition-failure path the constructor returns a nil
package pointer with the error, and `actionInstall` then invokes
`Cleanup` on that nil pointer; `Cleanup` immediately reads `p.Name`, so
the error branch panics on a nil dereference instead of returning the
acquisition error cleanly. -/
theorem C9_nil_cleanup_panics (openOk : Bool) (fp : String) (opts : PreinstallPackageOpts)
    (r : Fin 5 → Fin 61) (pmOpts : PackageManagerOpts) (env : InstallEnv)
    (h : opts.Name = "" ∨ opts.Version = "" ∨ openOk = false) :
    NewPackageFromFile openOk fp opts r = none ∧
    actionInstall (NewPackageFromFile openOk fp opts r) pmOpts env =
      (ActionOutcome.panicked, [CleanupCall.onNil]) ∧
    cleanupCall none = CleanupCallResult.nilPanic := by
  have hnone : NewPackageFromFile openOk fp opts r = none := by
    unfold NewPackageFromFile
    rcases h with h | h | h
    · simp [setOpts, h]
    · simp [setOpts, h]
    · subst h
      cases hs : setOpts opts r <;> simp [hs]
  exact ⟨hnone, by rw [hnone]; rfl, rfl⟩

/-- Witness for C9: an empty name makes acquisition fail and the
pipeline panic on the nil `Cleanup` receiver. -/
theorem C9_nil_cleanup_panics_witness :
    ((⟨"", "1.0", false, true⟩ : PreinstallPackageOpts).Name = "" ∨
     (⟨"", "1.0", false, true⟩ : PreinstallPackageOpts).Version = "" ∨ true = false) ∧
    (NewPackageFromFile true "t.tgz" ⟨"", "1.0", false, true⟩ (fun _ => 0) = none ∧
     actionInstall (NewPackageFromFile true "t.tgz" ⟨"", "1.0", false, true⟩ (fun _ => 0))
        examplePmOpts exampleEnvFallback = (ActionOutcome.panicked, [CleanupCall.onNil]) ∧
     cleanupCall none = CleanupCallResult.nilPanic) :=
  ⟨Or.inl rfl,
   C9_nil_cleanup_panics true "t.tgz" ⟨"", "1.0", false, true⟩ (fun _ => 0)
     examplePmOpts exampleEnvFallback (Or.inl rfl)⟩

/-- C10: with an empty candidate list the selection loop's exit
condition (`0 ≤ i ∧ i < 0`) is unsatisfiable — the continuation
condition holds for every integer — so the loop never terminates with a
chosen asset: it keeps re-prompting until input runs out, or panics on a
read error. -/
theorem C10_empty_candidates_never_chosen :
    (∀ kws : List String, potentialAssets kws [] = []) ∧
    (∀ i : Int, loopContinue 0 i = true) ∧
    (∀ (i : Int) (inputs : List (Option Int)), (selectLoop 0 i inputs).isChosen = false) := by
  have hc : ∀ i : Int, loopContinue 0 i = true := by
    intro i
    simp only [loopContinue, Nat.cast_zero, Bool.or_eq_true, decide_eq_true_eq]
    omega
  refine ⟨fun _ => rfl, hc, ?_⟩
  intro i inputs
  induction inputs generalizing i with
  | nil => simp [selectLoop, hc, SelectResult.isChosen]
  | cons inp rest ih =>
    cases inp with
    | none => simp [selectLoop, hc, SelectResult.isChosen]
    | some j => simpa [selectLoop, hc] using ih j

/-- `Install` either fails or returns exactly the package record it
built before extraction — whose `Symlinked` field is `false` and is never
updated. -/
theorem Install_result (ppkg : PreinstallPackage) (opts : PackageManagerOpts)
    (env : InstallEnv) :
    (Install ppkg opts env).result = none ∨
    (Install ppkg opts env).result =
      some { pre := ppkg
             FullPath := opts.StorePath ++ [ppkg.opts.Name, ppkg.opts.Version, ppkg.Id]
             Symlinked := false } := by
  unfold Install
  split
  · exact Or.inl rfl
  · split
    · exact Or.inl rfl
    · split
      · exact Or.inl rfl
      · split
        · exact Or.inl rfl
        · cases htl : (installWalk env.storeBase env.tree).topLevel <;> simp [htl]

/-- C3(code-bug evidence): every package a successful `Install` returns
has `Symlinked = false` — the code constructs the flag as `false` and no
statement ever sets it to `true`, although linking has run. -/
theorem C3_symlinked_stays_false (ppkg : PreinstallPackage) (opts : PackageManagerOpts)
    (env : InstallEnv) (pkg : Package) (h : (Install ppkg opts env).result = some pkg) :
    pkg.Symlinked = false := by
  rcases Install_result ppkg opts env with h0 | h0
  · rw [h0] at h
    simp at h
  · rw [h0] at h
    simp only [Option.some.injEq] at h
    subst h
    rfl

/-- Witness for C3: a concrete fully successful install whose returned
package still carries `Symlinked = false`. -/
theorem C3_symlinked_stays_false_witness :
    (Install examplePpkg examplePmOpts exampleEnvFallback).result = some examplePkg ∧
    examplePkg.Symlinked = false :=
  ⟨rfl, C3_symlinked_stays_false examplePpkg examplePmOpts exampleEnvFallback examplePkg rfl⟩

/-- C4 counterexample: on a fully successful install the pipeline
invokes `Cleanup` on the acquired archive twice — once inside `Install`
right after extraction and once more, unconditionally, in
`actionInstall` — not exactly once. -/
theorem C4_success_double_cleanup :
    (actionInstall (some examplePpkg) examplePmOpts exampleEnvFallback).1 =
      ActionOutcome.completed ∧
    (actionInstall (some examplePpkg) examplePmOpts exampleEnvFallback).2 =
      [CleanupCall.onPkg, CleanupCall.onPkg] ∧
    (actionInstall (some examplePpkg) examplePmOpts exampleEnvFallback).2.length ≠ 1 :=
  ⟨rfl, rfl, by decide⟩

/-- C4 amended: per exit path of the pipeline, `Cleanup` is invoked once
on a nil pointer when acquisition fails, exactly once when the package is
uninitialised or store-directory creation or extraction fails, and twice
(once inside `Install`, once in `actionInstall`) on the walk-failure and
success paths. -/
theorem C4_cleanup_call_characterization (acq : Option PreinstallPackage)
    (opts : PackageManagerOpts) (env : InstallEnv) :
    (actionInstall acq opts env).2 =
      match acq with
      | none => [CleanupCall.onNil]
      | some p =>
        if p.Initialised && env.mkdirOk && env.extractOk then
          [CleanupCall.onPkg, CleanupCall.onPkg]
        else [CleanupCall.onPkg] := by
  cases acq with
  | none => rfl
  | some p =>
    obtain ⟨mk, ex, sb, tr, wk, sf⟩ := env
    cases hI : p.Initialised <;> cases mk <;> cases ex <;> cases wk <;>
      cases htl : (installWalk sb tr).topLevel <;>
        simp [actionInstall, Install, hI, htl]

mutual

/-- When a walk step finishes with no canonical root, none existed
before it either, it recorded exactly the executable files of the
visited subtree, and it touched no link source. -/
theorem walkEntry_none (e : FSEntry) (parent : List String) (st : WalkState)
    (h : (walkEntry parent st e).topLevel = none) :
    st.topLevel = none ∧
    (walkEntry parent st e).executables = st.executables ++ allExecutables parent e ∧
    (walkEntry parent st e).dirs = st.dirs := by
  cases e with
  | file n mode =>
    by_cases hx : mode &&& 0o111 ≠ 0
    · exact ⟨by simpa [walkEntry, hx] using h,
             by simp [walkEntry, allExecutables, hx],
             by simp [walkEntry, hx]⟩
    · exact ⟨by simpa [walkEntry, hx] using h,
             by simp [walkEntry, allExecutables, hx],
             by simp [walkEntry, hx]⟩
  | dir n children =>
    cases hst : st.topLevel with
    | some tl => simp [walkEntry, hst] at h
    | none =>
      by_cases hn : n = "bin" ∨ n = "lib" ∨ n = "share"
      · simp [walkEntry, hst, hn] at h
      · have hrw : walkEntry parent st (.dir n children) =
            walkEntries (parent ++ [n]) st children := by
          simp [walkEntry, hst, hn]
        rw [hrw] at h ⊢
        obtain ⟨_, h2, h3⟩ := walkEntries_none children (parent ++ [n]) st h
        exact ⟨rfl, by simpa [allExecutables] using h2, h3⟩

/-- `walkEntry_none`, for a list of sibling entries. -/
theorem walkEntries_none (es : List FSEntry) (parent : List String) (st : WalkState)
    (h : (walkEntries parent st es).topLevel = none) :
    st.topLevel = none ∧
    (walkEntries parent st es).executables = st.executables ++ allExecutablesL parent es ∧
    (walkEntries parent st es).dirs = st.dirs := by
  cases es with
  | nil => exact ⟨by simpa [walkEntries] using h, by simp [walkEntries, allExecutablesL],
                  by simp [walkEntries]⟩
  | cons e rest =>
    have hrw : walkEntries parent st (e :: rest) =
        walkEntries parent (walkEntry parent st e) rest := rfl
    rw [hrw] at h ⊢
    obtain ⟨h1, h2, h3⟩ := walkEntries_none rest parent (walkEntry parent st e) h
    obtain ⟨h4, h5, h6⟩ := walkEntry_none e parent st h1
    refine ⟨h4, ?_, by rw [h3, h6]⟩
    rw [h2, h5, allExecutablesL, List.append_assoc]

end

/-- C1: the layout-detection walk partitions every extracted tree —
before any `bin`/`lib`/`share` directory is seen the walk descends and
records every executable-permission file; the first marker directory
makes its parent the canonical root, joins the link sources and is not
descended into; afterwards every directory joins the link sources and is
not descended into; a walk ending with no canonical root has collected
every executable file of the whole tree; and the `pkgroot/bin/tool`,
`pkgroot/lib/libfoo.so` example yields canonical root `pkgroot`, link
sources `bin` and `lib`, and links `bin/tool`, `lib/libfoo.so` into the
store. -/
theorem C1_layout_detection :
    (∀ (base : List String) (root : FSEntry),
      (installWalk base root).topLevel = none →
        (installWalk base root).executables = allExecutables base root ∧
        (installWalk base root).dirs = []) ∧
    (∀ (parent : List String) (st : WalkState) (n : String) (children : List FSEntry),
      st.topLevel = none → (n = "bin" ∨ n = "lib" ∨ n = "share") →
        walkEntry parent st (.dir n children) =
          { st with topLevel := some parent
                    dirs := st.dirs ++ [(parent ++ [n], .dir n children)] }) ∧
    (∀ (parent tl : List String) (st : WalkState) (n : String) (children : List FSEntry),
      st.topLevel = some tl →
        walkEntry parent st (.dir n children) =
          { st with dirs := st.dirs ++ [(parent ++ [n], .dir n children)] }) ∧
    ((installWalk [] exampleTree).topLevel = some ["store", "pkgroot"] ∧
     (installWalk [] exampleTree).dirs.map Prod.fst =
       [["store", "pkgroot", "bin"], ["store", "pkgroot", "lib"]] ∧
     (installWalk [] exampleTree).executables = []) ∧
    (Install examplePpkg examplePmOpts exampleEnvCanonical).links =
      [(["store", "pkgroot", "bin", "tool"], ["root", "bin", "tool"]),
       (["store", "pkgroot", "lib", "libfoo.so"], ["root", "lib", "libfoo.so"])] := by
  refine ⟨?_, ?_, ?_, ⟨rfl, rfl, rfl⟩, rfl⟩
  · intro base root h
    unfold installWalk at h ⊢
    have hw := walkEntry_none root base ⟨none, [], []⟩ h
    exact ⟨by simpa using hw.2.1, hw.2.2⟩
  · intro parent st n children h hn
    simp [walkEntry, h, hn]
  · intro parent tl st n children h
    simp [walkEntry, h]

/-- `matchCount` over a cons. -/
theorem matchCount_cons (a : GithubAsset) (kw : String) (l : List String) :
    matchCount a (kw :: l) =
      (if strContains (strToLower a.Name) kw = true then 1 else 0) + matchCount a l := by
  simp only [matchCount, List.filter_cons]
  split <;> simp [Nat.add_comm]

/-- The keyword loop for one asset, fully characterised: starting from
running count `c` and shared accumulator `acc`, it ends with the count
raised by the number of matching keywords and the asset appended once
per keyword index whose running count had already reached 2. -/
theorem assetScan_foldl (a : GithubAsset) (kws : List String) :
    ∀ (c : Nat) (acc : List GithubAsset),
      kws.foldl (assetScan a) (c, acc) =
        (c + matchCount a kws, acc ++ List.replicate (appendCountFrom a c kws) a) := by
  induction kws with
  | nil =>
    intro c acc
    simp [matchCount, appendCountFrom]
  | cons kw rest ih =>
    intro c acc
    rw [List.foldl_cons]
    have hstep : assetScan a (c, acc) kw =
        ((if strContains (strToLower a.Name) kw = true then c + 1 else c),
         (if 2 ≤ c then acc ++ [a] else acc)) := by
      by_cases h2 : 2 ≤ c <;> by_cases hm : strContains (strToLower a.Name) kw = true <;>
        simp [assetScan, h2, hm]
    rw [hstep, ih]
    simp only [Prod.mk.injEq]
    constructor
    · by_cases hm : strContains (strToLower a.Name) kw = true <;>
        simp [matchCount_cons, hm] <;> omega
    · rw [appendCountFrom]
      by_cases h2 : 2 ≤ c <;> by_cases hm : strContains (strToLower a.Name) kw = true <;>
        simp [h2, hm, Nat.one_add, List.replicate_succ, List.append_assoc]

/-- `appendCountFrom` counts exactly the keyword indices whose running
match count (offset by the starting count) has reached 2. -/
theorem appendCountFrom_eq (a : GithubAsset) (kws : List String) :
    ∀ c, appendCountFrom a c kws =
      ((List.range kws.length).filter fun i => 2 ≤ c + matchCount a (kws.take i)).length := by
  induction kws with
  | nil =>
    intro c
    simp [appendCountFrom]
  | cons kw rest ih =>
    intro c
    rw [appendCountFrom, List.length_cons, List.range_succ_eq_map, List.filter_cons]
    have hmap : (List.map Nat.succ (List.range rest.length)).filter
          (fun i => 2 ≤ c + matchCount a ((kw :: rest).take i)) =
        List.map Nat.succ ((List.range rest.length).filter
          ((fun i => 2 ≤ c + matchCount a ((kw :: rest).take i)) ∘ Nat.succ)) :=
      List.filter_map _ _
    have hpred : ((List.range rest.length).filter
          ((fun i => 2 ≤ c + matchCount a ((kw :: rest).take i)) ∘ Nat.succ)) =
        ((List.range rest.length).filter
          (fun i => 2 ≤ (c + if strContains (strToLower a.Name) kw = true then 1 else 0) +
            matchCount a (rest.take i))) := by
      refine List.filter_congr fun i _ => ?_
      simp only [Function.comp_apply, List.take_succ_cons, matchCount_cons]
      refine decide_eq_decide.mpr ?_
      by_cases hm : strContains (strToLower a.Name) kw = true <;> simp [hm] <;> omega
    have hmc : matchCount a ([] : List String) = 0 := rfl
    by_cases h2 : 2 ≤ c <;>
      simp [h2, hmc, hmap, hpred, Nat.one_add, List.length_map,
        ih (c + if strContains (strToLower a.Name) kw = true then 1 else 0)]

/-- The whole scoring pass, characterised: each asset appears in the
candidate list, in input order, exactly once per keyword index at which
its running match count had already reached 2. -/
theorem potentialAssets_eq (kws : List String) (assets : List GithubAsset) :
    potentialAssets kws assets =
      (assets.map fun a => List.replicate (appendIdxCount a kws) a).flatten := by
  suffices h : ∀ acc, assets.foldl (fun acc a => (kws.foldl (assetScan a) (0, acc)).2) acc =
      acc ++ (assets.map fun a => List.replicate (appendIdxCount a kws) a).flatten by
    simpa [potentialAssets] using h []
  induction assets with
  | nil => simp
  | cons a rest ih =>
    intro acc
    rw [List.foldl_cons, assetScan_foldl, ih]
    simp [appendIdxCount, appendCountFrom_eq, List.append_assoc]

/-- C5: the scoring pass appends an asset once per keyword index at
which the running case-insensitive match count has already reached 2
before that keyword is tested; an asset whose count reaches 2 only on
the final keyword is never appended; concretely (OS/arch linux/amd64
with alias keywords `""` and `x86`), an asset can appear zero, one or
two times in the candidate list. -/
theorem C5_asset_scoring :
    (∀ (kws : List String) (assets : List GithubAsset),
      potentialAssets kws assets =
        (assets.map fun a => List.replicate (appendIdxCount a kws) a).flatten) ∧
    (∀ (kws : List String) (a : GithubAsset),
      (∀ i, i < kws.length → matchCount a (kws.take i) < 2) →
        potentialAssets kws [a] = []) ∧
    (potentialAssets (wantedKeywords "linux" "amd64")
        [assetLinuxAmd64, assetWindows, assetLinuxArm64] =
      [assetLinuxAmd64, assetLinuxAmd64, assetLinuxArm64] ∧
     appendIdxCount assetLinuxAmd64 (wantedKeywords "linux" "amd64") = 2 ∧
     appendIdxCount assetWindows (wantedKeywords "linux" "amd64") = 0 ∧
     appendIdxCount assetLinuxArm64 (wantedKeywords "linux" "amd64") = 1) := by
  refine ⟨potentialAssets_eq, ?_, by decide, by decide, by decide, by decide⟩
  intro kws a h
  rw [potentialAssets_eq]
  have hz : appendIdxCount a kws = 0 := by
    unfold appendIdxCount
    rw [List.filter_eq_nil_iff.mpr, List.length_nil]
    intro i hi
    simp only [List.mem_range] at hi
    have hlt := h i hi
    simp only [decide_eq_true_eq]
    omega
  simp [hz]

mutual

/-- Individual symlink failures only drop the failed link: the links a
canonical-root walk creates under a failure environment are exactly the
failure-free links filtered by the failure predicate — no failure stops
the rest of the walk. -/
theorem linkWalkE_filter (sym tl : List String) (f : List String → List String → Bool)
    (selfPath : List String) (e : FSEntry) :
    linkWalkE sym tl f selfPath e =
      (linkWalkE sym tl (fun _ _ => false) selfPath e).filter fun l => !(f l.1 l.2) := by
  cases e with
  | file n mode =>
    by_cases hf : f selfPath (sym ++ relPath tl selfPath) = true <;>
      simp [linkWalkE, hf]
  | dir n children =>
    simpa [linkWalkE] using linkWalkL_filter sym tl f selfPath children

/-- `linkWalkE_filter` over the children of one directory. -/
theorem linkWalkL_filter (sym tl : List String) (f : List String → List String → Bool)
    (dirPath : List String) (es : List FSEntry) :
    linkWalkL sym tl f dirPath es =
      (linkWalkL sym tl (fun _ _ => false) dirPath es).filter fun l => !(f l.1 l.2) := by
  cases es with
  | nil => simp [linkWalkL]
  | cons e rest =>
    have h1 := linkWalkE_filter sym tl f (dirPath ++ [e.name]) e
    have h2 := linkWalkL_filter sym tl f dirPath rest
    calc linkWalkL sym tl f dirPath (e :: rest)
        = linkWalkE sym tl f (dirPath ++ [e.name]) e ++ linkWalkL sym tl f dirPath rest := rfl
      _ = (linkWalkL sym tl (fun _ _ => false) dirPath (e :: rest)).filter
            fun l => !(f l.1 l.2) := by
          rw [h1, h2, ← List.filter_append]
          rfl

end

/-- The fallback strategy has the same best-effort property: a failing
symlink drops only that link. -/
theorem linkExecutables_filter (sym : List String) (f : List String → List String → Bool)
    (exes : List (List String)) :
    linkExecutables sym f exes =
      (linkExecutables sym (fun _ _ => false) exes).filter fun l => !(f l.1 l.2) := by
  induction exes with
  | nil => rfl
  | cons e rest ih =>
    have hcons : ∀ g : List String → List String → Bool,
        linkExecutables sym g (e :: rest) =
          (if g e (sym ++ ["bin", e.getLastD ""]) then []
           else [(e, sym ++ ["bin", e.getLastD ""])]) ++
          linkExecutables sym g rest := by
      intro g
      show List.filterMap _ (e :: rest) = _
      rw [List.filterMap_cons]
      cases hg : g e (sym ++ ["bin", e.getLastD ""]) with
      | true => simp only [hg]; simp [linkExecutables]
      | false => simp only [hg]; simp [linkExecutables]
    rw [hcons f, hcons (fun _ _ => false), List.filter_append, ih]
    cases hf : f e (sym ++ ["bin", e.getLastD ""]) with
    | true =>
      have hf2 : f e (sym ++ ["bin", e.getLast?.getD ""]) = true := by
        simpa [List.getLastD_eq_getLast?] using hf
      simp [hf, hf2]
    | false =>
      have hf2 : f e (sym ++ ["bin", e.getLast?.getD ""]) = false := by
        simpa [List.getLastD_eq_getLast?] using hf
      simp [hf, hf2]

/-- C6: linking is best-effort — whichever individual symlinks fail,
`Install` still returns the package (no error), and the links actually
created are exactly the failure-free links minus the failed ones, in
both strategies; on a tree with a single executable `tool` and no
marker directory the fallback creates exactly `link-root/bin/tool`. -/
theorem C6_best_effort_linking :
    (∀ (ppkg : PreinstallPackage) (opts : PackageManagerOpts) (env : InstallEnv),
      ppkg.Initialised = true → env.mkdirOk = true → env.extractOk = true →
      env.walkOk = true → (Install ppkg opts env).result.isSome = true) ∧
    (∀ (sym tl : List String) (f : List String → List String → Bool)
        (selfPath : List String) (e : FSEntry),
      linkWalkE sym tl f selfPath e =
        (linkWalkE sym tl (fun _ _ => false) selfPath e).filter fun l => !(f l.1 l.2)) ∧
    (∀ (sym : List String) (f : List String → List String → Bool)
        (exes : List (List String)),
      linkExecutables sym f exes =
        (linkExecutables sym (fun _ _ => false) exes).filter fun l => !(f l.1 l.2)) ∧
    ((Install examplePpkg examplePmOpts exampleEnvFallback).links =
      [(["pkgdir", "tool"], ["root", "bin", "tool"])] ∧
     (Install examplePpkg examplePmOpts exampleEnvFallback).result.isSome = true) := by
  refine ⟨?_, linkWalkE_filter, linkExecutables_filter, rfl, rfl⟩
  intro ppkg opts env hI hm he hw
  unfold Install
  simp only [hI, hm, he, hw, Bool.not_true, Bool.false_eq_true, if_false]
  cases htl : (installWalk env.storeBase env.tree).topLevel <;> simp [htl]

end Infpm
